import Mathlib

/-!
# Verification of the `ridgeplot` figure-construction pipeline

A shallow embedding of the data model and operations of the `ridgeplot`
library (sample normalisation, shape inference, density estimation
pass-through, colorscale interpolation and resolution, trace-geometry
baselines, weight-shape validation, deprecation resolution, and the
missing-value sentinel), together with theorems settling the spec claims.

Numeric values are modelled as rationals (`ℚ`): every property at stake is
exact arithmetic (linear interpolation, cumulative sums, structural
identities), not floating-point rounding behaviour.
-/

namespace Ridgeplot

/-! ## Missing-value sentinel (from `src/ridgeplot/_missing.pyx`) -/

/-- The `_Missing` enum from `_missing.pyx`: a Python `Enum` with the single
member `MISSING = "MISSING"`. -/
inductive MissingSentinel where
  | MISSING : MissingSentinel
deriving DecidableEq, Repr

/-- The `__repr__` method of `_Missing`, which returns the literal string
`"<MISSING>"`. -/
def MissingSentinel.reprStr : MissingSentinel → String
  | .MISSING => "<MISSING>"

/-- The list of members of the `_Missing` enum (Python enum iteration
order); `_missing.pyx` declares exactly one member. -/
def MissingSentinel.members : List MissingSentinel := [.MISSING]

/-- An optional-parameter slot as seen by a `ridgeplot(...)` call site:
either the parameter was not supplied (the `MISSING` sentinel default) or
the caller supplied a value, which may itself be Python `None`
(`.supplied Option.none`) or a real value (`.supplied (some a)`).
This embeds the call-convention around `MISSING` in `_missing.pyx`:
the sentinel is a distinct enum member, not `None` and not a user value. -/
inductive ParamSlot (α : Type) where
  | missing : ParamSlot α
  | supplied : Option α → ParamSlot α
deriving DecidableEq

/-! ## Density estimator (spec-modelled)

Modelled from the spec: the module `ridgeplot._kde` (the Density
Estimator) is not present under `src/`; only its declaration sites
(changelog, docs) are. Per section 4.3 of the spec, the estimator takes
one trace (either raw `FlatSamples` or an already-computed
`DensityCurve` pair), a bandwidth, evaluation points, and optional
weights; a `DensityCurve` input "is returned unmodified", while raw
samples are handed to the external KDE routine (abstracted here as a
function argument, since the KDE mathematics are out of scope). -/

/-- One input trace: raw samples (`FlatSamples`) or a precomputed
`(x, y)` density pair (`DensityCurve`). -/
inductive TraceInput where
  | samples : List ℚ → TraceInput
  | curve : List ℚ → List ℚ → TraceInput
deriving DecidableEq

/-- Named or numeric bandwidth for the KDE routine. -/
inductive Bandwidth where
  | fixed : ℚ → Bandwidth
  | rule : String → Bandwidth
deriving DecidableEq

/-- Modelled from the spec (section 4.3): estimate one trace's density.
`kdeFn` abstracts the external KDE routine (its output, or `none` on a
degenerate fit, which is surfaced as a failure). A `DensityCurve` input
with matching `x`/`y` lengths is returned unchanged on the pass-through
path; mismatched lengths fail validation. -/
def estimateDensity
    (kdeFn : List ℚ → Bandwidth → List ℚ → Option (List ℚ) → Option (List ℚ × List ℚ))
    (bandwidth : Bandwidth) (points : List ℚ) (weights : Option (List ℚ)) :
    TraceInput → Option (List ℚ × List ℚ)
  | .curve x y => if x.length = y.length then some (x, y) else none
  | .samples s => kdeFn s bandwidth points weights

/-! ## Shape inference (spec-modelled)

Modelled from the spec: `get_collection_array_shape` (the Shape
Inference helper in `ridgeplot._utils`) is not present under `src/`;
only the changelog mentions it. Per section 4.1 of the spec, it takes an
arbitrarily nested structure of sequences terminating in numbers and
returns the ragged shape: at each level a single integer when all
children agree, per-element sub-shapes when they differ, `0` for an
empty sequence, and `()` for a numeric scalar; it fails with a
ShapeError exactly when siblings at one level mix numbers and
sequences. -/

/-- A ragged nested numeric structure: a scalar number or a sequence of
nested structures. -/
inductive NestedVal where
  | num : ℚ → NestedVal
  | seq : List NestedVal → NestedVal

/-- The ragged shape of a nested structure: `scalar` for a number
(shape `()`), `uniform n s` when all `n` children share shape `s`
(a single integer per level, `uniform 0 scalar` for an empty sequence),
`ragged` for per-element sub-shapes when children disagree. -/
inductive Shape where
  | scalar : Shape
  | uniform : Nat → Shape → Shape
  | ragged : List Shape → Shape

mutual

/-- Boolean structural equality on shapes. -/
def Shape.beq : Shape → Shape → Bool
  | .scalar, .scalar => true
  | .uniform n s, .uniform m t => n == m && Shape.beq s t
  | .ragged ss, .ragged ts => Shape.beqList ss ts
  | _, _ => false

/-- Boolean structural equality on lists of shapes. -/
def Shape.beqList : List Shape → List Shape → Bool
  | [], [] => true
  | s :: ss, t :: ts => Shape.beq s t && Shape.beqList ss ts
  | _, _ => false

end

instance : BEq Shape := ⟨Shape.beq⟩

/-- Whether a nested value is a numeric scalar. -/
def NestedVal.isNum : NestedVal → Bool
  | .num _ => true
  | .seq _ => false

/-- Whether a nested value is a sequence. -/
def NestedVal.isSeqVal : NestedVal → Bool
  | .num _ => false
  | .seq _ => true

/-- Siblings at one level mix a number with a sequence — the ShapeError
condition of section 4.1. -/
def mixedSiblings (xs : List NestedVal) : Bool :=
  xs.any NestedVal.isNum && xs.any NestedVal.isSeqVal

mutual

/-- Modelled from the spec (section 4.1): infer the ragged shape of a
nested structure in a single traversal, failing with a ShapeError
message when siblings at the same level have inconsistent types. -/
def collectShape : NestedVal → Except String Shape
  | .num _ => .ok .scalar
  | .seq xs =>
    if mixedSiblings xs then
      .error "ShapeError: mixed number and sequence siblings"
    else
      match collectShapes xs with
      | .error e => .error e
      | .ok [] => .ok (.uniform 0 .scalar)
      | .ok (s :: ss) =>
        if ss.all (· == s) then .ok (.uniform (ss.length + 1) s)
        else .ok (.ragged (s :: ss))

/-- Infer the shapes of a list of sibling values, propagating the first
failure. -/
def collectShapes : List NestedVal → Except String (List Shape)
  | [] => .ok []
  | x :: xs =>
    match collectShape x with
    | .error e => .error e
    | .ok s =>
      match collectShapes xs with
      | .error e => .error e
      | .ok ss => .ok (s :: ss)

end

mutual

/-- Siblings at every nesting level of a value have consistent types
(never a number next to a sequence); lengths are unconstrained. -/
def typeConsistent : NestedVal → Bool
  | .num _ => true
  | .seq xs => !mixedSiblings xs && typeConsistentList xs

/-- `typeConsistent` over every element of a list. -/
def typeConsistentList : List NestedVal → Bool
  | [] => true
  | x :: xs => typeConsistent x && typeConsistentList xs

end

mutual

theorem collectShape_isOk_eq (v : NestedVal) :
    (collectShape v).isOk = typeConsistent v := by
  match v with
  | .num q => rfl
  | .seq xs =>
    rw [collectShape, typeConsistent, ← collectShapes_isOk_eq xs]
    cases hmix : mixedSiblings xs with
    | true => simp [Except.isOk, Except.toBool]
    | false =>
      simp only [Bool.false_eq_true, if_false, Bool.not_false, Bool.true_and]
      cases h : collectShapes xs with
      | error e => simp [Except.isOk, Except.toBool]
      | ok ss =>
        cases ss with
        | nil => simp [Except.isOk, Except.toBool]
        | cons s rest =>
          cases hall : rest.all (· == s) <;>
            simp [hall, Except.isOk, Except.toBool]

theorem collectShapes_isOk_eq (xs : List NestedVal) :
    (collectShapes xs).isOk = typeConsistentList xs := by
  match xs with
  | [] => rfl
  | x :: rest =>
    rw [collectShapes, typeConsistentList, ← collectShape_isOk_eq x,
      ← collectShapes_isOk_eq rest]
    cases hx : collectShape x with
    | error e => simp [Except.isOk, Except.toBool]
    | ok s =>
      cases hr : collectShapes rest with
      | error e => simp [Except.isOk, Except.toBool]
      | ok ss => simp [Except.isOk, Except.toBool]

end

/-! ## Sample normaliser (spec-modelled)

Modelled from the spec: the Sample Normalizer (the depth-2 → depth-3
promotion logic of `ridgeplot._figure_factory` / `ridgeplot._types`) is
not present under `src/`. Per section 4.2 of the spec, input that is a
flat sequence of per-row sample lists (depth 2) is promoted to the
canonical rows → traces → points form (depth 3) by wrapping each row's
single trace list in a singleton sequence; depth-3 input passes through
after validating that leaf traces are either plain numeric sequences or
exactly-length-2 `(x, y)` pairs (the density pass-through form); a row
with zero traces or a flat trace with zero points fails validation. -/

/-- All elements of a list of nested values are numeric scalars. -/
def allNums : List NestedVal → Bool
  | [] => true
  | .num _ :: rest => allNums rest
  | .seq _ :: _ => false

/-- A flat trace: a nonempty sequence of numbers (a `FlatSamples`
leaf with at least one point). -/
def isFlatTrace : NestedVal → Bool
  | .num _ => false
  | .seq ts => !ts.isEmpty && allNums ts

/-- A `DensityCurve`-pair trace: an exactly-length-2 `(x, y)` pair of
numeric sequences with matching lengths (the density pass-through leaf
form of section 4.2, with section 3's matching-length invariant). -/
def isCurvePair : NestedVal → Bool
  | .seq [.seq xs, .seq ys] => allNums xs && allNums ys && (xs.length == ys.length)
  | _ => false

/-- A valid depth-3 leaf trace: either a plain (nonempty) numeric
sequence or an exactly-length-2 `(x, y)` pair. -/
def isValidTrace (t : NestedVal) : Bool :=
  isFlatTrace t || isCurvePair t

/-- A canonical depth-3 row: a nonempty sequence of valid leaf traces
(flat samples or density-curve pairs). -/
def isDepth3Row : NestedVal → Bool
  | .num _ => false
  | .seq ts => !ts.isEmpty && ts.all isValidTrace

/-- Valid depth-2 shorthand input: a sequence of rows, each a flat
numeric trace (one trace per row). -/
def isDepth2 : NestedVal → Bool
  | .num _ => false
  | .seq rows => rows.all isFlatTrace

/-- Valid canonical depth-3 input: a sequence of rows, each a nonempty
sequence of valid leaf traces (plain numeric sequences or
exactly-length-2 `(x, y)` pairs). -/
def isDepth3 : NestedVal → Bool
  | .num _ => false
  | .seq rows => rows.all isDepth3Row

/-- Modelled from the spec (section 4.2): normalise sample input to the
canonical 3-level rows → traces → points structure. Depth-2 rows are
promoted by wrapping each row's single trace list in a singleton
sequence; depth-3 input passes through; anything else fails
validation. -/
def normaliseSamples (v : NestedVal) : Option NestedVal :=
  match v with
  | .num _ => none
  | .seq rows =>
    if isDepth2 v then some (.seq (rows.map (fun r => .seq [r])))
    else if isDepth3 v then some v
    else none

theorem isDepth3Row_not_flat {r : NestedVal} (h : isDepth3Row r = true) :
    isFlatTrace r = false := by
  match r with
  | .num _ => rfl
  | .seq [] => simp [isDepth3Row] at h
  | .seq (NestedVal.num q :: ts) =>
    simp [isDepth3Row, isValidTrace, isFlatTrace, isCurvePair] at h
  | .seq (NestedVal.seq us :: ts) => simp [isFlatTrace, allNums]

theorem normalise_depth3_fixed {v : NestedVal} (h : isDepth3 v = true) :
    normaliseSamples v = some v := by
  match v with
  | .num _ => simp [isDepth3] at h
  | .seq rows =>
    rw [normaliseSamples]
    match rows, h with
    | [], _ => rfl
    | r :: rs, h =>
      rw [isDepth3] at h
      simp only [List.all_cons, Bool.and_eq_true] at h
      have hflat : isFlatTrace r = false := isDepth3Row_not_flat h.1
      have h2 : isDepth2 (.seq (r :: rs)) = false := by
        simp [isDepth2, hflat]
      rw [h2]
      simp [isDepth3, h.1, h.2]

theorem wrapped_isDepth3 {rows : List NestedVal}
    (h : rows.all isFlatTrace = true) :
    isDepth3 (.seq (rows.map fun r => .seq [r])) = true := by
  rw [isDepth3, List.all_map]
  rw [List.all_eq_true] at h ⊢
  intro r hr
  have hf := h r hr
  simp [Function.comp, isDepth3Row, isValidTrace, hf]

/-! ## Color resolver (spec-modelled)

Modelled from the spec: the `ridgeplot._color` modules (interpolation
along continuous colorscales, index-to-position computation, and the
palette registry behind `list_all_colorscale_names`) are not present
under `src/`; only the changelog and docs mention them. Sections 4.4
and 6 of the spec describe the interpolation algorithm, the
single-row/single-trace position edge case, and the sorted-deduplicated
name-listing utility. -/

/-- A color in a common internal numeric representation: one rational
per channel. -/
structure RGB where
  r : ℚ
  g : ℚ
  b : ℚ
deriving DecidableEq

/-- Linear interpolation of each color channel. -/
def lerpRGB (c1 c2 : RGB) (t : ℚ) : RGB :=
  ⟨c1.r + (c2.r - c1.r) * t, c1.g + (c2.g - c1.g) * t, c1.b + (c2.b - c1.b) * t⟩

/-- Walk the breakpoints after `prev` looking for the segment bracketing
`p`: interpolate inside the first segment whose right endpoint is at or
past `p`, and clamp to the final color when `p` lies past every
breakpoint. -/
def interpColorFrom : ℚ × RGB → List (ℚ × RGB) → ℚ → RGB
  | (_, c1), [], _ => c1
  | (q1, c1), (q2, c2) :: rest, p =>
    if p ≤ q2 then lerpRGB c1 c2 ((p - q1) / (q2 - q1))
    else interpColorFrom (q2, c2) rest p

/-- Modelled from the spec (section 4.4): interpolate a continuous
colorscale, given as ordered `(position, color)` breakpoints, at
position `p`; positions at or before the first breakpoint clamp to the
first color, positions past the last breakpoint clamp to the last
color, and in between each channel is linearly interpolated between the
bracketing breakpoints. An empty scale has no colors to return. -/
def interpolateColor (scale : List (ℚ × RGB)) (p : ℚ) : Option RGB :=
  match scale with
  | [] => none
  | (q0, c0) :: rest =>
    if p ≤ q0 then some c0 else some (interpColorFrom (q0, c0) rest p)

/-- Modelled from the spec (section 4.4): the interpolation position of
index `i` among `n` items — `i / (n - 1)`, except that a single item
(denominator zero) resolves to position `0` instead of dividing by
zero. -/
def indexToPosition (i n : ℕ) : ℚ :=
  if n ≤ 1 then 0 else (i : ℚ) / ((n : ℚ) - 1)

/-- Resolve the color of item `i` among `n` on a continuous scale, for
the row-index and trace-index colormodes. -/
def resolveIndexedColor (scale : List (ℚ × RGB)) (i n : ℕ) : Option RGB :=
  interpolateColor scale (indexToPosition i n)

theorem lerpRGB_zero (c1 c2 : RGB) : lerpRGB c1 c2 0 = c1 := by
  simp [lerpRGB]

theorem lerpRGB_one (c1 c2 : RGB) : lerpRGB c1 c2 1 = c2 := by
  simp [lerpRGB]

theorem lerpRGB_self_div (c1 c2 : RGB) {d : ℚ} (hd : d ≠ 0) :
    lerpRGB c1 c2 (d / d) = c2 := by
  rw [div_self hd, lerpRGB_one]

theorem interpColorFrom_append_lt (pre : List (ℚ × RGB)) (prev : ℚ × RGB)
    (rest : List (ℚ × RGB)) (p : ℚ) (h : ∀ e ∈ pre, e.1 < p) :
    interpColorFrom prev (pre ++ rest) p =
      interpColorFrom (pre.getLastD prev) rest p := by
  induction pre generalizing prev with
  | nil => rfl
  | cons e pre ih =>
    obtain ⟨q2, c2⟩ := e
    obtain ⟨q1, c1⟩ := prev
    rw [List.cons_append, interpColorFrom, List.getLastD_cons]
    have hq2 : q2 < p := h (q2, c2) (List.mem_cons_self _ _)
    rw [if_neg (by exact not_le.mpr hq2)]
    exact ih (q2, c2) fun x hx => h x (List.mem_cons_of_mem _ hx)

theorem interpColorFrom_past_last (prev : ℚ × RGB) (l : List (ℚ × RGB))
    (p : ℚ) (h : ∀ e ∈ l, e.1 < p) :
    interpColorFrom prev l p = (l.getLastD prev).2 := by
  have := interpColorFrom_append_lt l prev [] p h
  rw [List.append_nil] at this
  rw [this]
  rfl

theorem chain_lt_getLast (e : ℚ × RGB) (l : List (ℚ × RGB)) (hne : l ≠ [])
    (h : List.Chain' (fun a b : ℚ × RGB => a.1 < b.1) (e :: l)) :
    e.1 < (l.getLast hne).1 := by
  match l with
  | [a] =>
    rw [List.chain'_cons] at h
    simpa using h.1
  | a :: b :: l2 =>
    rw [List.chain'_cons] at h
    rw [List.getLast_cons (by simp)]
    exact lt_trans h.1 (chain_lt_getLast a (b :: l2) (by simp) h.2)

theorem interpColorFrom_at_last (prev : ℚ × RGB) (l : List (ℚ × RGB))
    (hne : l ≠ []) (p : ℚ)
    (hchain : List.Chain' (fun a b : ℚ × RGB => a.1 < b.1) (prev :: l))
    (hp : (l.getLast hne).1 ≤ p) :
    interpColorFrom prev l p = (l.getLast hne).2 := by
  match prev, l with
  | (q1, c1), [(q2, c2)] =>
    rw [List.chain'_cons] at hchain
    rw [interpColorFrom]
    simp only [List.getLast_singleton] at hp ⊢
    by_cases hple : p ≤ q2
    · have hpq : p = q2 := le_antisymm hple hp
      rw [if_pos hple, hpq]
      exact lerpRGB_self_div c1 c2 (sub_ne_zero.mpr (ne_of_gt hchain.1))
    · rw [if_neg hple]
      rfl
  | (q1, c1), (q2, c2) :: b :: l2 =>
    rw [List.chain'_cons] at hchain
    rw [interpColorFrom]
    have hq2 : q2 < (List.getLast (b :: l2) (by simp)).1 :=
      chain_lt_getLast (q2, c2) (b :: l2) (by simp) hchain.2
    rw [List.getLast_cons (by simp)] at hp ⊢
    rw [if_neg (by exact not_le.mpr (lt_of_lt_of_le hq2 hp))]
    exact interpColorFrom_at_last (q2, c2) (b :: l2) (by simp) p hchain.2 hp

/-- Modelled from the spec (sections 5 and 6): the process-wide palette
table behind the named-colorscale lookup — a read-only registry mapping
colorscale names to their breakpoint lists. -/
structure PaletteTable where
  entries : List (String × List (ℚ × RGB))

/-- Modelled from the spec (section 6): `list_all_colorscale_names`,
the color-utility listing all recognised built-in continuous colorscale
names, sorted and deduplicated — a read-only query over the palette
table. -/
def list_all_colorscale_names (t : PaletteTable) : List String :=
  List.insertionSort (· ≤ ·) (t.entries.map fun e => e.1).dedup

/-- Modelled from the spec (section 4.4): resolve a named colorscale by
case-insensitive lookup in the palette table, failing with a
ColorResolutionError naming the offending value when the name is
unknown. -/
def lookupColorscale (t : PaletteTable) (name : String) :
    Except String (List (ℚ × RGB)) :=
  match t.entries.find? (fun e => e.1.toLower == name.toLower) with
  | some e => .ok e.2
  | none => .error ("ColorResolutionError: unknown colorscale " ++ name)

/-! ## Trace geometry: row baselines (spec-modelled)

Modelled from the spec: the Trace Geometry Builder
(`ridgeplot._figure_factory`) is not present under `src/`. Per section
4.5 of the spec, rows are stacked from first to last with a cumulative
vertical baseline: each row's baseline is the previous row's baseline
plus `spacing` times a normalisation factor derived from the overall
y-value range across all rows; all traces of a row share its
baseline. -/

/-- Modelled from the spec (section 4.5): the normalisation factor
derived from the overall y-value range across all rows — the largest
density y-value appearing in any row (density y-values are
non-negative, so the overall range extends from 0 up to this value). -/
def overallYMax (rows : List (List ℚ)) : ℚ :=
  (rows.map fun ys => ys.foldr max 0).foldr max 0

/-- Modelled from the spec (section 4.5): the cumulative baseline of
row `i` — the first row sits at 0 and each later row's baseline is the
previous row's baseline plus `spacing` times the normalisation
factor. -/
def rowBaseline (spacing normFactor : ℚ) : ℕ → ℚ
  | 0 => 0
  | i + 1 => rowBaseline spacing normFactor i + spacing * normFactor

theorem rowBaseline_zero_spacing (normFactor : ℚ) (i : ℕ) :
    rowBaseline 0 normFactor i = 0 := by
  induction i with
  | zero => rfl
  | succ i ih => rw [rowBaseline, ih, zero_mul, add_zero]

/-! ## Sample-weights shape validation (spec-modelled)

Modelled from the spec: the eager `sample_weights` shape validation of
the Sample Normalizer / Figure Assembler is not present under `src/`.
Per sections 4.2 and 7 of the spec, the weights' shape must exactly
mirror the samples' FlatSamples shape (row-for-row, trace-for-trace,
point-for-point); any mismatch fails with a ShapeError naming the
offending row/trace index, and no figure is produced. The error value
here is the named location: `(row, none)` for a row-count mismatch at
`row`, `(row, some trace)` for a trace-count or point-count mismatch
inside that row. -/

/-- Check one row: weight traces must match sample traces one-for-one
and point-for-point; on mismatch, name the row `r` and the offending
trace index. -/
def checkTraces (r t : ℕ) : List (List ℚ) → List (List ℚ) →
    Except (ℕ × Option ℕ) Unit
  | [], [] => .ok ()
  | [], _ :: _ => .error (r, some t)
  | _ :: _, [] => .error (r, some t)
  | s :: ss, w :: ws =>
    if s.length = w.length then checkTraces r (t + 1) ss ws
    else .error (r, some t)

/-- Check all rows from index `r` on: weight rows must match sample
rows one-for-one; on a row-count mismatch, name the offending row. -/
def checkRows (r : ℕ) : List (List (List ℚ)) → List (List (List ℚ)) →
    Except (ℕ × Option ℕ) Unit
  | [], [] => .ok ()
  | [], _ :: _ => .error (r, none)
  | _ :: _, [] => .error (r, none)
  | s :: ss, w :: ws =>
    match checkTraces r 0 s w with
    | .error e => .error e
    | .ok () => checkRows (r + 1) ss ws

/-- Modelled from the spec (sections 4.2 and 7): validate that the
supplied sample weights exactly mirror the samples' shape, failing with
a ShapeError naming the offending row/trace index otherwise. -/
def validate_sample_weights (samples weights : List (List (List ℚ))) :
    Except (ℕ × Option ℕ) Unit :=
  checkRows 0 samples weights

/-- The shape disagreement named by a weight-shape error: a row present
on only one side, or a trace (or its point count) disagreeing at the
named row/trace position. -/
def weightShapeMismatchAt (samples weights : List (List (List ℚ))) :
    ℕ × Option ℕ → Prop
  | (r, none) => (samples.get? r).isSome ≠ (weights.get? r).isSome
  | (r, some t) =>
      ((samples.get? r).bind fun row => row.get? t).map List.length ≠
      ((weights.get? r).bind fun row => row.get? t).map List.length

theorem checkTraces_ok_iff (s w : List (List ℚ)) (r t : ℕ) :
    checkTraces r t s w = .ok () ↔ s.map List.length = w.map List.length := by
  induction s generalizing w t with
  | nil =>
    cases w with
    | nil => simp [checkTraces]
    | cons b ws => simp [checkTraces]
  | cons a ss ih =>
    cases w with
    | nil => simp [checkTraces]
    | cons b ws =>
      rw [checkTraces]
      by_cases h : a.length = b.length
      · rw [if_pos h]
        simp [h, ih]
      · rw [if_neg h]
        simp [h]

theorem checkRows_ok_iff (ss ws : List (List (List ℚ))) (r : ℕ) :
    checkRows r ss ws = .ok () ↔
      ss.map (fun row => row.map List.length) =
        ws.map (fun row => row.map List.length) := by
  induction ss generalizing ws r with
  | nil =>
    cases ws with
    | nil => simp [checkRows]
    | cons b ws => simp [checkRows]
  | cons a ss ih =>
    cases ws with
    | nil => simp [checkRows]
    | cons b ws =>
      rw [checkRows]
      cases hct : checkTraces r 0 a b with
      | error e =>
        have hne : ¬a.map List.length = b.map List.length := fun hmap =>
          by rw [(checkTraces_ok_iff a b r 0).mpr hmap] at hct; cases hct
        simp [hne]
      | ok u =>
        obtain ⟨⟩ := u
        have hmap : a.map List.length = b.map List.length :=
          (checkTraces_ok_iff a b r 0).mp hct
        simp [hmap, ih]

theorem checkTraces_error (s w : List (List ℚ)) (r t r2 : ℕ) (ot : Option ℕ)
    (h : checkTraces r t s w = .error (r2, ot)) :
    r2 = r ∧ ∃ k, ot = some (t + k) ∧
      (s.get? k).map List.length ≠ (w.get? k).map List.length := by
  induction s generalizing w t with
  | nil =>
    cases w with
    | nil => simp [checkTraces] at h
    | cons b ws =>
      simp only [checkTraces, Except.error.injEq, Prod.mk.injEq] at h
      refine ⟨h.1.symm, 0, ?_, by simp⟩
      rw [← h.2, Nat.add_zero]
  | cons a ss ih =>
    cases w with
    | nil =>
      simp only [checkTraces, Except.error.injEq, Prod.mk.injEq] at h
      refine ⟨h.1.symm, 0, ?_, by simp⟩
      rw [← h.2, Nat.add_zero]
    | cons b ws =>
      rw [checkTraces] at h
      by_cases hl : a.length = b.length
      · rw [if_pos hl] at h
        obtain ⟨hr, k, hk, hne⟩ := ih ws (t + 1) h
        refine ⟨hr, k + 1, ?_, by simpa using hne⟩
        rw [hk]
        congr 1
        omega
      · rw [if_neg hl] at h
        simp only [Except.error.injEq, Prod.mk.injEq] at h
        refine ⟨h.1.symm, 0, ?_, by simp [hl]⟩
        rw [← h.2, Nat.add_zero]

theorem checkRows_error (ss ws : List (List (List ℚ))) (r r2 : ℕ)
    (ot : Option ℕ) (h : checkRows r ss ws = .error (r2, ot)) :
    ∃ k, r2 = r + k ∧
      ((ot = none ∧ (ss.get? k).isSome ≠ (ws.get? k).isSome) ∨
       (∃ t, ot = some t ∧
         ((ss.get? k).bind fun row => row.get? t).map List.length ≠
         ((ws.get? k).bind fun row => row.get? t).map List.length)) := by
  induction ss generalizing ws r with
  | nil =>
    cases ws with
    | nil => simp [checkRows] at h
    | cons b ws =>
      simp only [checkRows, Except.error.injEq, Prod.mk.injEq] at h
      exact ⟨0, by omega, Or.inl ⟨h.2.symm, by simp⟩⟩
  | cons a ss ih =>
    cases ws with
    | nil =>
      simp only [checkRows, Except.error.injEq, Prod.mk.injEq] at h
      exact ⟨0, by omega, Or.inl ⟨h.2.symm, by simp⟩⟩
    | cons b ws =>
      rw [checkRows] at h
      cases hct : checkTraces r 0 a b with
      | error e =>
        rw [hct] at h
        obtain ⟨er, eot⟩ := e
        simp only [Except.error.injEq, Prod.mk.injEq] at h
        obtain ⟨her, heot⟩ := h
        rw [her, heot] at hct
        obtain ⟨hr, k2, hk2, hne⟩ := checkTraces_error a b r 0 r2 ot hct
        refine ⟨0, by omega, Or.inr ⟨k2, by simpa using hk2, by simpa using hne⟩⟩
      | ok u =>
        obtain ⟨⟩ := u
        rw [hct] at h
        obtain ⟨k, hk, hrest⟩ := ih ws (r + 1) h
        refine ⟨k + 1, by omega, by simpa using hrest⟩

/-! ## Deprecation-alias resolution (spec-modelled)

Modelled from the spec: the deprecation handling of the Figure
Assembler (`ridgeplot._figure_factory` / `ridgeplot._deprecations`) is
not present under `src/`; the spec (sections 4.6, 6 and 7) and the
0.2.0 changelog entries describe it: `coloralpha` was renamed to
`opacity` and `linewidth` to `line_width`; a supplied legacy parameter
triggers a non-fatal deprecation notice and is mapped onto the current
parameter before validation, after which the call proceeds with the new
semantics; a deprecation condition never by itself raises an error.
Legacy slots default to the `MISSING` sentinel of `_missing.pyx`
(`ParamSlot.missing`), so an explicit `None` is distinguishable from
"not supplied". -/

/-- The raw keyword arguments relevant to deprecation resolution:
current names (`opacity`, `line_width`) and their deprecated aliases
(`coloralpha`, `linewidth`), the aliases defaulting to `MISSING`. -/
structure RawParams where
  opacity : Option ℚ
  coloralpha : ParamSlot ℚ
  line_width : Option ℚ
  linewidth : ParamSlot ℚ

/-- The canonical configuration used by everything downstream: only the
current parameter names survive. -/
structure ResolvedParams where
  opacity : Option ℚ
  line_width : Option ℚ
deriving DecidableEq

/-- Modelled from the spec (sections 4.6 and 6): resolve deprecated
aliases once at the top of the orchestrator, emitting one deprecation
notice per legacy parameter supplied and mapping its value onto the
current parameter; the result is always produced, never an error. -/
def resolveDeprecations (p : RawParams) : List String × ResolvedParams :=
  let oRes : List String × Option ℚ :=
    match p.coloralpha with
    | .missing => ([], p.opacity)
    | .supplied a =>
      (["DeprecationWarning: coloralpha is deprecated; use opacity"], a)
  let lRes : List String × Option ℚ :=
    match p.linewidth with
    | .missing => ([], p.line_width)
    | .supplied a =>
      (["DeprecationWarning: linewidth is deprecated; use line_width"], a)
  (oRes.1 ++ lRes.1, ⟨oRes.2, lRes.2⟩)

/-! ## Theorems -/

/-- C4: shape inference succeeds exactly on nested structures whose
siblings at every level have consistent types (ragged lengths never
cause failure, since `typeConsistent` is length-blind); a numeric leaf
has shape `()` (`scalar`), an empty sequence has shape component `0`,
and a number next to a sequence fails with a ShapeError. -/
theorem shape_inference_success_iff :
    (∀ v, (collectShape v).isOk = typeConsistent v) ∧
    (∀ q, collectShape (.num q) = .ok .scalar) ∧
    collectShape (.seq []) = .ok (.uniform 0 .scalar) ∧
    (∀ xs s ss, mixedSiblings xs = false → collectShapes xs = .ok (s :: ss) →
      (ss.all (· == s) = true →
        collectShape (.seq xs) = .ok (.uniform (ss.length + 1) s)) ∧
      (ss.all (· == s) = false →
        collectShape (.seq xs) = .ok (.ragged (s :: ss)))) ∧
    collectShape (.seq [.num 1, .seq [.num 2]]) =
      .error "ShapeError: mixed number and sequence siblings" := by
  refine ⟨collectShape_isOk_eq, fun q => rfl, ?_, ?_, ?_⟩
  · rw [collectShape]
    rfl
  · intro xs s ss hmix h
    constructor <;> intro hall <;> rw [collectShape] <;> simp [hmix, h, hall]
  · rw [collectShape]
    simp [mixedSiblings, NestedVal.isNum, NestedVal.isSeqVal]

/-- Witness for C4: siblings of equal shape yield a single integer per
level (`[[1], [2]]` has shape `uniform 2 (uniform 1 scalar)`), and
siblings of differing lengths yield per-element sub-shapes
(`[[1], [2, 3]]` is `ragged`), with no failure on ragged lengths. -/
theorem shape_inference_success_iff_witness :
    collectShape (.seq [.seq [.num 1], .seq [.num 2]]) =
      .ok (.uniform 2 (.uniform 1 .scalar)) ∧
    collectShape (.seq [.seq [.num 1], .seq [.num 2, .num 3]]) =
      .ok (.ragged [.uniform 1 .scalar, .uniform 2 .scalar]) :=
  ⟨(shape_inference_success_iff.2.2.2.1 [.seq [.num 1], .seq [.num 2]]
      (.uniform 1 .scalar) [.uniform 1 .scalar] rfl rfl).1 rfl,
   (shape_inference_success_iff.2.2.2.1 [.seq [.num 1], .seq [.num 2, .num 3]]
      (.uniform 1 .scalar) [.uniform 2 .scalar] rfl rfl).2 rfl⟩

/-- C5: on a continuous colorscale whose breakpoints start at position 0
and end at position 1 with strictly increasing positions, interpolation
at 0 returns exactly the first breakpoint color, at 1 exactly the last
breakpoint color, out-of-range positions clamp to the nearest endpoint
color, and a position bracketed by two consecutive breakpoints yields
the channel-wise linear interpolation between them. -/
theorem colorscale_interpolation_correct
    (c0 : RGB) (rest : List (ℚ × RGB)) (hne : rest ≠ [])
    (hchain : List.Chain' (fun a b : ℚ × RGB => a.1 < b.1) ((0, c0) :: rest))
    (hlast : (rest.getLast hne).1 = 1) :
    interpolateColor ((0, c0) :: rest) 0 = some c0 ∧
    interpolateColor ((0, c0) :: rest) 1 = some (rest.getLast hne).2 ∧
    (∀ p : ℚ, p ≤ 0 → interpolateColor ((0, c0) :: rest) p = some c0) ∧
    (∀ p : ℚ, 1 ≤ p →
      interpolateColor ((0, c0) :: rest) p = some (rest.getLast hne).2) ∧
    (∀ (pre : List (ℚ × RGB)) (q1 : ℚ) (c1 : RGB) (q2 : ℚ) (c2 : RGB)
      (post : List (ℚ × RGB)) (p : ℚ),
      (0, c0) :: rest = pre ++ (q1, c1) :: (q2, c2) :: post →
      q1 ≤ p → p ≤ q2 →
      interpolateColor ((0, c0) :: rest) p =
        some (lerpRGB c1 c2 ((p - q1) / (q2 - q1)))) := by
  have hclamp_lo : ∀ p : ℚ, p ≤ 0 → interpolateColor ((0, c0) :: rest) p = some c0 := by
    intro p hp
    rw [interpolateColor, if_pos hp]
  have hclamp_hi : ∀ p : ℚ, 1 ≤ p →
      interpolateColor ((0, c0) :: rest) p = some (rest.getLast hne).2 := by
    intro p hp
    rw [interpolateColor, if_neg (by exact not_le.mpr (lt_of_lt_of_le one_pos hp))]
    rw [interpColorFrom_at_last (0, c0) rest hne p hchain (hlast ▸ hp)]
  refine ⟨hclamp_lo 0 le_rfl, hclamp_hi 1 le_rfl, hclamp_lo, hclamp_hi, ?_⟩
  intro pre q1 c1 q2 c2 post p heq hq1p hpq2
  haveI : IsTrans (ℚ × RGB) (fun a b : ℚ × RGB => a.1 < b.1) :=
    ⟨fun _ _ _ => lt_trans⟩
  have hpw : ((0, c0) :: rest).Pairwise (fun a b : ℚ × RGB => a.1 < b.1) :=
    hchain.pairwise
  rw [heq] at hpw
  have hsplit := (List.pairwise_append.mp hpw).2.2
  have hmem_q1 : (q1, c1) ∈ (q1, c1) :: (q2, c2) :: post := List.mem_cons_self _ _
  rcases pre with _ | ⟨⟨qa, ca⟩, pre2⟩
  · simp only [List.nil_append, List.cons.injEq, Prod.mk.injEq] at heq
    obtain ⟨⟨hq1, hc1⟩, hrest⟩ := heq
    subst hq1 hc1 hrest
    rw [interpolateColor]
    by_cases hp0 : p ≤ 0
    · have hp : p = 0 := le_antisymm hp0 hq1p
      rw [if_pos hp0, hp]
      simp [lerpRGB_zero]
    · rw [if_neg hp0, interpColorFrom, if_pos hpq2]
  · simp only [List.cons_append, List.cons.injEq, Prod.mk.injEq] at heq
    obtain ⟨⟨hqa, hca⟩, hrest⟩ := heq
    subst hqa hca hrest
    have hq1pos : (0 : ℚ) < q1 :=
      hsplit (0, c0) (List.mem_cons_self _ _) (q1, c1) hmem_q1
    rw [interpolateColor,
      if_neg (by exact not_le.mpr (lt_of_lt_of_le hq1pos hq1p))]
    rw [interpColorFrom_append_lt pre2 (0, c0) ((q1, c1) :: (q2, c2) :: post) p
      (fun e he => lt_of_lt_of_le
        (hsplit e (List.mem_cons_of_mem _ he) (q1, c1) hmem_q1) hq1p)]
    have hlastpre : pre2.getLastD (0, c0) ∈ (0, c0) :: pre2 :=
      List.getLastD_mem_cons pre2 (0, c0)
    have hlp : (pre2.getLastD (0, c0)).1 < q1 :=
      hsplit _ hlastpre (q1, c1) hmem_q1
    rcases hkk : pre2.getLastD (0, c0) with ⟨qk, ck⟩
    rw [hkk] at hlp
    rw [interpColorFrom]
    by_cases hpq1 : p ≤ q1
    · have hp : p = q1 := le_antisymm hpq1 hq1p
      rw [if_pos hpq1, hp, sub_self, zero_div, lerpRGB_zero]
      have hd : q1 - qk ≠ 0 := sub_ne_zero.mpr (ne_of_gt hlp)
      rw [div_self hd, lerpRGB_one]
    · rw [if_neg hpq1, interpColorFrom, if_pos hpq2]

/-- Witness for C5: on the concrete two-breakpoint scale from black at
position 0 to white at position 1, interpolation at 0 gives black, at 1
gives white, at 3 clamps to white, and the bracketed position 1/2 gives
mid-grey. -/
theorem colorscale_interpolation_correct_witness :
    interpolateColor [((0 : ℚ), RGB.mk 0 0 0), (1, RGB.mk 1 1 1)] 0 =
      some (RGB.mk 0 0 0) ∧
    interpolateColor [((0 : ℚ), RGB.mk 0 0 0), (1, RGB.mk 1 1 1)] 1 =
      some (RGB.mk 1 1 1) ∧
    interpolateColor [((0 : ℚ), RGB.mk 0 0 0), (1, RGB.mk 1 1 1)] 3 =
      some (RGB.mk 1 1 1) ∧
    interpolateColor [((0 : ℚ), RGB.mk 0 0 0), (1, RGB.mk 1 1 1)] (1 / 2) =
      some (RGB.mk (1 / 2) (1 / 2) (1 / 2)) := by
  have h := colorscale_interpolation_correct (RGB.mk 0 0 0) [(1, RGB.mk 1 1 1)]
    (by simp) (by simp [List.chain'_cons]) (by simp)
  refine ⟨h.1, h.2.1, h.2.2.2.1 3 (by norm_num), ?_⟩
  have hb := h.2.2.2.2 [] 0 (RGB.mk 0 0 0) 1 (RGB.mk 1 1 1) [] (1 / 2) rfl
    (by norm_num) (by norm_num)
  rw [hb]
  norm_num [lerpRGB]

/-- C6: with exactly one row (or one trace), where the interpolation
denominator `count - 1` would be zero, the resolver's position guard
yields position 0 instead of dividing by zero, and the resolved color is
the scale's start color. -/
theorem single_item_resolves_to_start (c0 : RGB) (rest : List (ℚ × RGB))
    (i : ℕ) (hi : i = 0) :
    indexToPosition i 1 = 0 ∧
    resolveIndexedColor ((0, c0) :: rest) i 1 = some c0 := by
  subst hi
  refine ⟨rfl, ?_⟩
  rw [resolveIndexedColor]
  have h0 : indexToPosition 0 1 = 0 := rfl
  rw [h0, interpolateColor, if_pos le_rfl]

/-- Witness for C6: a single-row input on the black-to-white scale
resolves to position 0 and receives black, the start color. -/
theorem single_item_resolves_to_start_witness :
    indexToPosition 0 1 = 0 ∧
    resolveIndexedColor [((0 : ℚ), RGB.mk 0 0 0), (1, RGB.mk 1 1 1)] 0 1 =
      some (RGB.mk 0 0 0) :=
  single_item_resolves_to_start (RGB.mk 0 0 0) [(1, RGB.mk 1 1 1)] 0 rfl

/-- C9: round-trip between the two public entry points: the
colorscale-listing utility returns a sorted, deduplicated sequence, and
every name it returns resolves successfully — lookup never returns a
ColorResolutionError for a listed name. -/
theorem colorscale_names_roundtrip (t : PaletteTable) :
    (list_all_colorscale_names t).Sorted (· ≤ ·) ∧
    (list_all_colorscale_names t).Nodup ∧
    (∀ name ∈ list_all_colorscale_names t,
      ∃ s, lookupColorscale t name = .ok s) := by
  refine ⟨List.sorted_insertionSort _ _,
    ((List.perm_insertionSort _ _).nodup_iff).mpr (List.nodup_dedup _), ?_⟩
  intro name hmem
  have hdedup : name ∈ (t.entries.map fun e => e.1).dedup :=
    (List.perm_insertionSort _ _).mem_iff.mp hmem
  have hmap : name ∈ t.entries.map fun e => e.1 := List.mem_dedup.mp hdedup
  obtain ⟨e, he, heq⟩ := List.mem_map.mp hmap
  have hsome : (t.entries.find? (fun e => e.1.toLower == name.toLower)).isSome := by
    rw [List.find?_isSome]
    exact ⟨e, he, by rw [heq]; exact beq_self_eq_true _⟩
  rw [lookupColorscale]
  cases hfind : t.entries.find? (fun e => e.1.toLower == name.toLower) with
  | none => rw [hfind] at hsome; exact absurd hsome (by simp)
  | some e2 => exact ⟨e2.2, rfl⟩

/-- Witness for C9: on a concrete one-entry palette table, the listed
name resolves successfully. -/
theorem colorscale_names_roundtrip_witness :
    "viridis" ∈ list_all_colorscale_names
      ⟨[("viridis", [(0, RGB.mk 0 0 0), (1, RGB.mk 1 1 1)])]⟩ ∧
    ∃ s, lookupColorscale
      ⟨[("viridis", [(0, RGB.mk 0 0 0), (1, RGB.mk 1 1 1)])]⟩ "viridis" = .ok s :=
  ⟨List.mem_singleton.mpr rfl,
   (colorscale_names_roundtrip
      ⟨[("viridis", [(0, RGB.mk 0 0 0), (1, RGB.mk 1 1 1)])]⟩).2.2
      "viridis" (List.mem_singleton.mpr rfl)⟩

/-- C2: the sample normaliser is idempotent: valid depth-3 input is
returned unchanged, and valid depth-2 input is promoted to a depth-3
structure (each row's trace list wrapped in a singleton sequence) whose
re-normalisation is a no-op. -/
theorem sample_normaliser_idempotent (v : NestedVal) :
    (isDepth3 v = true → normaliseSamples v = some v) ∧
    (isDepth2 v = true →
      ∃ w, normaliseSamples v = some w ∧ isDepth3 w = true ∧
        normaliseSamples w = some w) := by
  refine ⟨fun h => normalise_depth3_fixed h, fun h => ?_⟩
  match v with
  | .num _ => simp [isDepth2] at h
  | .seq rows =>
    have hall : rows.all isFlatTrace = true := by
      rw [isDepth2] at h; exact h
    have hw : isDepth3 (.seq (rows.map fun r => .seq [r])) = true :=
      wrapped_isDepth3 hall
    refine ⟨.seq (rows.map fun r => .seq [r]), ?_, hw, normalise_depth3_fixed hw⟩
    rw [normaliseSamples]
    simp [h]

/-- Witness for C2: the theorem applies to the concrete depth-3 input
`[[[1]]]` (a fixed point), to the depth-3 input
`[[([0, 1], [2, 3])]]` whose single trace is a `DensityCurve` pair
(also a fixed point, the density pass-through form), and to the
concrete depth-2 input `[[1, 2]]` (promoted to `[[[1, 2]]]`, a fixed
point). -/
theorem sample_normaliser_idempotent_witness :
    isDepth3 (.seq [.seq [.seq [.num 1]]]) = true ∧
    normaliseSamples (.seq [.seq [.seq [.num 1]]]) =
      some (.seq [.seq [.seq [.num 1]]]) ∧
    isDepth3 (.seq [.seq [.seq [.seq [.num 0, .num 1],
      .seq [.num 2, .num 3]]]]) = true ∧
    normaliseSamples (.seq [.seq [.seq [.seq [.num 0, .num 1],
        .seq [.num 2, .num 3]]]]) =
      some (.seq [.seq [.seq [.seq [.num 0, .num 1],
        .seq [.num 2, .num 3]]]]) ∧
    isDepth2 (.seq [.seq [.num 1, .num 2]]) = true ∧
    (∃ w, normaliseSamples (.seq [.seq [.num 1, .num 2]]) = some w ∧
      isDepth3 w = true ∧ normaliseSamples w = some w) :=
  ⟨rfl, (sample_normaliser_idempotent _).1 rfl, rfl,
   (sample_normaliser_idempotent _).1 rfl, rfl,
   (sample_normaliser_idempotent _).2 rfl⟩

/-- C1: row baselines stack cumulatively from first row to last — each
row's baseline is the previous row's baseline plus `spacing` times the
normalisation factor derived from the rows' overall y-range; with
`spacing = 0` all baselines are equal, and with `spacing > 0` (and a
nontrivial y-range, as every density estimate has) each later row's
baseline is strictly greater than the previous row's. -/
theorem row_baselines_stacking (spacing : ℚ) (rows : List (List ℚ)) :
    (∀ i, rowBaseline spacing (overallYMax rows) (i + 1) =
      rowBaseline spacing (overallYMax rows) i + spacing * overallYMax rows) ∧
    (spacing = 0 → ∀ i j, rowBaseline spacing (overallYMax rows) i =
      rowBaseline spacing (overallYMax rows) j) ∧
    (0 < spacing → 0 < overallYMax rows → ∀ i,
      rowBaseline spacing (overallYMax rows) i <
        rowBaseline spacing (overallYMax rows) (i + 1)) := by
  refine ⟨fun i => rfl, fun h i j => ?_, fun hs hy i => ?_⟩
  · subst h
    rw [rowBaseline_zero_spacing, rowBaseline_zero_spacing]
  · rw [rowBaseline]
    exact lt_add_of_pos_right _ (mul_pos hs hy)

/-- Witness for C1: with the two concrete rows `[[1], [2]]`,
`spacing = 0` makes baselines 0 and 3 equal, and `spacing = 1` (with
the positive overall y-max 2) makes row 1's baseline strictly greater
than row 0's. -/
theorem row_baselines_stacking_witness :
    rowBaseline 0 (overallYMax [[1], [2]]) 0 =
      rowBaseline 0 (overallYMax [[1], [2]]) 3 ∧
    (0 : ℚ) < overallYMax [[1], [2]] ∧
    rowBaseline 1 (overallYMax [[1], [2]]) 0 <
      rowBaseline 1 (overallYMax [[1], [2]]) 1 :=
  ⟨(row_baselines_stacking 0 [[1], [2]]).2.1 rfl 0 3,
   by norm_num [overallYMax],
   (row_baselines_stacking 1 [[1], [2]]).2.2 one_pos
     (by norm_num [overallYMax]) 0⟩

/-- C7: the call succeeds exactly when the weights' shape mirrors the
samples' shape row-for-row, trace-for-trace and point-for-point; on any
mismatch it returns a ShapeError naming an offending row/trace index at
which the two shapes actually disagree, and no result is produced. -/
theorem sample_weights_shape_validation
    (samples weights : List (List (List ℚ))) :
    (validate_sample_weights samples weights = .ok () ↔
      samples.map (fun row => row.map List.length) =
        weights.map (fun row => row.map List.length)) ∧
    (samples.map (fun row => row.map List.length) ≠
        weights.map (fun row => row.map List.length) →
      ∃ e, validate_sample_weights samples weights = .error e ∧
        weightShapeMismatchAt samples weights e) := by
  have hok := checkRows_ok_iff samples weights 0
  refine ⟨hok, fun hne => ?_⟩
  cases hres : validate_sample_weights samples weights with
  | ok u =>
    obtain ⟨⟩ := u
    exact absurd (hok.mp hres) hne
  | error e =>
    refine ⟨e, rfl, ?_⟩
    obtain ⟨r2, ot⟩ := e
    unfold validate_sample_weights at hres
    obtain ⟨k, hk, hdisj⟩ := checkRows_error samples weights 0 r2 ot hres
    have hk0 : r2 = k := by omega
    subst hk0
    cases hdisj with
    | inl hl =>
      rw [hl.1]
      simpa [weightShapeMismatchAt] using hl.2
    | inr hr =>
      obtain ⟨t, hot, hne2⟩ := hr
      rw [hot]
      simpa [weightShapeMismatchAt] using hne2

/-- Witness for C7: matching shapes validate successfully, while a
one-weight list supplied for a 3-point trace fails with a ShapeError
naming row 0 / trace 0, where the shapes indeed disagree. -/
theorem sample_weights_shape_validation_witness :
    validate_sample_weights [[[1, 2, 3]]] [[[4, 5, 6]]] = .ok () ∧
    (∃ e, validate_sample_weights [[[1, 2, 3]]] [[[9]]] = .error e ∧
      weightShapeMismatchAt [[[1, 2, 3]]] [[[9]]] e) :=
  ⟨(sample_weights_shape_validation [[[1, 2, 3]]] [[[4, 5, 6]]]).1.mpr rfl,
   (sample_weights_shape_validation [[[1, 2, 3]]] [[[9]]]).2 (by decide)⟩

/-- C8: each supplied deprecated alias (`coloralpha` for `opacity`,
`linewidth` for `line_width`) emits a non-fatal deprecation notice and
is mapped onto the current parameter before validation; with no legacy
parameter supplied there is no notice; and the resolved configuration
equals the one obtained by supplying the current parameter directly, so
the call proceeds with the new semantics and a deprecation condition
never by itself raises an error (resolution is total and
warning-only). -/
theorem deprecated_params_resolved (p : RawParams) :
    (∀ a, p.coloralpha = .supplied a →
      "DeprecationWarning: coloralpha is deprecated; use opacity"
        ∈ (resolveDeprecations p).1 ∧
      (resolveDeprecations p).2.opacity = a) ∧
    (∀ a, p.linewidth = .supplied a →
      "DeprecationWarning: linewidth is deprecated; use line_width"
        ∈ (resolveDeprecations p).1 ∧
      (resolveDeprecations p).2.line_width = a) ∧
    (p.coloralpha = .missing → p.linewidth = .missing →
      (resolveDeprecations p).1 = [] ∧
      (resolveDeprecations p).2 = ⟨p.opacity, p.line_width⟩) ∧
    (∀ a, p.coloralpha = .supplied a →
      (resolveDeprecations p).2 =
        (resolveDeprecations ⟨a, .missing, p.line_width, p.linewidth⟩).2) ∧
    (∀ a, p.linewidth = .supplied a →
      (resolveDeprecations p).2 =
        (resolveDeprecations ⟨p.opacity, p.coloralpha, a, .missing⟩).2) := by
  obtain ⟨op, ca, lw, lww⟩ := p
  refine ⟨fun a ha => ?_, fun a ha => ?_, fun h1 h2 => ?_,
    fun a ha => ?_, fun a ha => ?_⟩
  · subst ha
    cases lww <;> simp [resolveDeprecations]
  · subst ha
    cases ca <;> simp [resolveDeprecations]
  · subst h1
    subst h2
    simp [resolveDeprecations]
  · subst ha
    cases lww <;> simp [resolveDeprecations]
  · subst ha
    cases ca <;> simp [resolveDeprecations]

/-- Witness for C8: supplying the legacy `coloralpha := 1/2` (with
`opacity` not supplied) emits the deprecation notice and resolves
`opacity` to 1/2. -/
theorem deprecated_params_resolved_witness :
    "DeprecationWarning: coloralpha is deprecated; use opacity"
      ∈ (resolveDeprecations ⟨none, .supplied (some (1 / 2)), none, .missing⟩).1 ∧
    (resolveDeprecations
      ⟨none, .supplied (some (1 / 2)), none, .missing⟩).2.opacity =
        some (1 / 2) :=
  (deprecated_params_resolved ⟨none, .supplied (some (1 / 2)), none, .missing⟩).1
    (some (1 / 2)) rfl

/-- C10: the `_Missing` enum has exactly one member `MISSING`, any two
occurrences of the sentinel are equal, the sentinel differs from `None`
and from every supplied parameter value, and its repr is `"<MISSING>"`. -/
theorem missing_sentinel_singleton :
    (∀ x y : MissingSentinel, x = y) ∧
    MissingSentinel.members = [MissingSentinel.MISSING] ∧
    MissingSentinel.reprStr MissingSentinel.MISSING = "<MISSING>" ∧
    (∀ (α : Type) (v : Option α),
      (ParamSlot.missing : ParamSlot α) ≠ ParamSlot.supplied v) :=
  ⟨fun x y => by cases x; cases y; rfl,
   rfl, rfl,
   fun _ v h => by cases h⟩

/-- Witness for C10: at a concrete parameter site the `MISSING`
sentinel differs from an explicitly supplied value (and from a supplied
`None`). -/
theorem missing_sentinel_singleton_witness :
    (ParamSlot.missing : ParamSlot ℚ) ≠ ParamSlot.supplied (some 1) ∧
    (ParamSlot.missing : ParamSlot ℚ) ≠ ParamSlot.supplied Option.none :=
  ⟨missing_sentinel_singleton.2.2.2 ℚ (some 1),
   missing_sentinel_singleton.2.2.2 ℚ Option.none⟩

/-- C3: the density estimator is the identity on `DensityCurve` input:
for any equal-length `(x, y)` pair it returns exactly that pair,
regardless of the KDE routine, bandwidth, evaluation points, and weights
supplied. -/
theorem estimateDensity_passthrough
    (kdeFn : List ℚ → Bandwidth → List ℚ → Option (List ℚ) → Option (List ℚ × List ℚ))
    (bandwidth : Bandwidth) (points : List ℚ) (weights : Option (List ℚ))
    (x y : List ℚ) (hlen : x.length = y.length) :
    estimateDensity kdeFn bandwidth points weights (.curve x y) = some (x, y) := by
  simp [estimateDensity, hlen]

/-- Witness for C3: the pass-through applies at the concrete curve
`x = [0, 1, 2]`, `y = [1, 2, 1]` with a nontrivial KDE oracle and
arbitrary parameters. -/
theorem estimateDensity_passthrough_witness :
    estimateDensity (fun s _ _ _ => some (s, s)) (.fixed 1) [0] (some [1])
      (.curve [0, 1, 2] [1, 2, 1]) = some ([0, 1, 2], [1, 2, 1]) :=
  estimateDensity_passthrough _ _ _ _ _ _ (by decide)

end Ridgeplot
